import Mathlib

/-
Verification of the password-generation subsystem of the repository
(src/services/passwordGeneration.service.ts).  The TypeScript code is shallowly
embedded: JS numbers handled by the service are modelled as Int, JS strings as
Lean String or List Char, possibly-absent object fields as Option, and the two
sources of randomness (the comparator-based shuffle and the per-position secure
draws) as explicit parameters quantified over in the theorems.
-/

namespace PasswordGen

/-- A caller-supplied options object (the service takes `options: any`): each
field may be absent, in which case `Object.assign` keeps the default. -/
structure GenOptions where
  length : Option Int := none
  ambiguous : Option Bool := none
  number : Option Bool := none
  minNumber : Option Int := none
  uppercase : Option Bool := none
  minUppercase : Option Int := none
  lowercase : Option Bool := none
  minLowercase : Option Int := none
  special : Option Bool := none
  minSpecial : Option Int := none
deriving DecidableEq

/-- The options object after `Object.assign({}, DefaultOptions, options)`:
every field is present. -/
structure MergedOptions where
  length : Int
  ambiguous : Bool
  number : Bool
  minNumber : Int
  uppercase : Bool
  minUppercase : Int
  lowercase : Bool
  minLowercase : Int
  special : Bool
  minSpecial : Int
deriving DecidableEq

/-- The module-level DefaultOptions constant (service lines 12-23). -/
def DefaultOptions : MergedOptions :=
  { length := 14
    ambiguous := false
    number := true
    minNumber := 1
    uppercase := true
    minUppercase := 1
    lowercase := true
    minLowercase := 1
    special := false
    minSpecial := 1 }

/-- `Object.assign({}, DefaultOptions, options)` (line 35): a field supplied by
the caller overrides the default, an absent field keeps the default. -/
def mergeOptions (options : GenOptions) : MergedOptions :=
  { length := options.length.getD DefaultOptions.length
    ambiguous := options.ambiguous.getD DefaultOptions.ambiguous
    number := options.number.getD DefaultOptions.number
    minNumber := options.minNumber.getD DefaultOptions.minNumber
    uppercase := options.uppercase.getD DefaultOptions.uppercase
    minUppercase := options.minUppercase.getD DefaultOptions.minUppercase
    lowercase := options.lowercase.getD DefaultOptions.lowercase
    minLowercase := options.minLowercase.getD DefaultOptions.minLowercase
    special := options.special.getD DefaultOptions.special
    minSpecial := options.minSpecial.getD DefaultOptions.minSpecial }

/-- Lines 38-40. -/
def sanitizeUpper (o : MergedOptions) : MergedOptions :=
  if o.uppercase = true ∧ o.minUppercase < 0 then { o with minUppercase := 1 } else o

/-- Lines 41-43. -/
def sanitizeLower (o : MergedOptions) : MergedOptions :=
  if o.lowercase = true ∧ o.minLowercase < 0 then { o with minLowercase := 1 } else o

/-- Lines 44-46. -/
def sanitizeNumber (o : MergedOptions) : MergedOptions :=
  if o.number = true ∧ o.minNumber < 0 then { o with minNumber := 1 } else o

/-- Lines 47-49. -/
def sanitizeSpecial (o : MergedOptions) : MergedOptions :=
  if o.special = true ∧ o.minSpecial < 0 then { o with minSpecial := 1 } else o

/-- The sanitize step (lines 38-49): an enabled class whose minimum is negative
gets minimum 1; minimums of disabled classes are left untouched. -/
def sanitizeMins (o : MergedOptions) : MergedOptions :=
  sanitizeSpecial (sanitizeNumber (sanitizeLower (sanitizeUpper o)))

/-- Lines 51-53: `if (!o.length || o.length < 1) o.length = 10`.  Over the
integer model a falsy length (0) is already covered by `< 1`. -/
def defaultLength (o : MergedOptions) : MergedOptions :=
  if o.length < 1 then { o with length := 10 } else o

/-- `minLength` (line 55): the sum of all four minimum fields, whether or not
the corresponding class toggle is enabled. -/
def minLengthOf (o : MergedOptions) : Int :=
  o.minUppercase + o.minLowercase + o.minNumber + o.minSpecial

/-- Lines 56-58: the length is raised to `minLength` when it is below it. -/
def raiseLength (o : MergedOptions) : MergedOptions :=
  if o.length < minLengthOf o then { o with length := minLengthOf o } else o

/-- The whole option-normalization prefix of generatePassword (lines 35-58). -/
def normalizeOptions (options : GenOptions) : MergedOptions :=
  raiseLength (defaultLength (sanitizeMins (mergeOptions options)))

/-- The position plan (lines 60-83): per enabled class with a positive minimum,
that many tag characters, followed by the fill of 'a' tags up to the length. -/
def buildPositions (o : MergedOptions) : List Char :=
  let ps : List Char :=
    (if o.lowercase = true ∧ 0 < o.minLowercase then List.replicate o.minLowercase.toNat 'l' else [])
    ++ (if o.uppercase = true ∧ 0 < o.minUppercase then List.replicate o.minUppercase.toNat 'u' else [])
    ++ (if o.number = true ∧ 0 < o.minNumber then List.replicate o.minNumber.toNat 'n' else [])
    ++ (if o.special = true ∧ 0 < o.minSpecial then List.replicate o.minSpecial.toNat 's' else [])
  ps ++ List.replicate (o.length.toNat - ps.length) 'a'

/-- Lines 93-96. -/
def lowercaseCharSet (ambiguous : Bool) : List Char :=
  "abcdefghijkmnopqrstuvwxyz".toList ++ (if ambiguous then ['l'] else [])

/-- Lines 101-104. -/
def uppercaseCharSet (ambiguous : Bool) : List Char :=
  "ABCDEFGHIJKLMNPQRSTUVWXYZ".toList ++ (if ambiguous then ['O'] else [])

/-- Lines 109-112. -/
def numberCharSet (ambiguous : Bool) : List Char :=
  "23456789".toList ++ (if ambiguous then ['0', '1'] else [])

/-- Line 117. -/
def specialCharSet : List Char := "!@#$%^&*".toList

/-- `allCharSet` (lines 91-120): concatenation of the enabled class sets. -/
def allCharSet (o : MergedOptions) : List Char :=
  (if o.lowercase then lowercaseCharSet o.ambiguous else [])
  ++ (if o.uppercase then uppercaseCharSet o.ambiguous else [])
  ++ (if o.number then numberCharSet o.ambiguous else [])
  ++ (if o.special then specialCharSet else [])

/-- The switch on the position tag (lines 124-141). -/
def tagCharSet (o : MergedOptions) (t : Char) : List Char :=
  if t = 'l' then lowercaseCharSet o.ambiguous
  else if t = 'u' then uppercaseCharSet o.ambiguous
  else if t = 'n' then numberCharSet o.ambiguous
  else if t = 's' then specialCharSet
  else if t = 'a' then allCharSet o
  else []

/-- Modelled from the spec: UtilsService.secureRandomNumber (utils.service.ts is
not among the sources) returns a uniformly distributed, cryptographically
secure integer in [lo, hi], both bounds inclusive.  The draw is modelled by an
arbitrary entropy value v reduced into the range, so that quantifying over v
quantifies over exactly the in-range behaviours; the spec leaves an empty
range (hi < lo) undefined and the model then returns lo, a value that
String.charAt turns into no character just as any other out-of-range index. -/
def secureRandomNumber (v : Nat) (lo hi : Int) : Int :=
  if lo ≤ hi then lo + (v : Int) % (hi - lo + 1) else lo

/-- String.prototype.charAt: the one-character string at index i, or the empty
string when i is out of range. -/
def charAt (s : List Char) (i : Int) : List Char :=
  if h : 0 ≤ i ∧ i.toNat < s.length then [s.get ⟨i.toNat, h.2⟩] else []

/-- One iteration of the password loop (lines 143-144): a secure draw over the
index range of the position's character set, then charAt. -/
def drawChar (v : Nat) (s : List Char) : List Char :=
  charAt s (secureRandomNumber v 0 ((s.length : Int) - 1))

/-- The password-building loop (lines 122-145) over the position tags actually
read (positions[0] .. positions[length-1]); i is the loop index, feeding the
entropy oracle. -/
def buildPassword (o : MergedOptions) (rand : Nat → Nat) : Nat → List Char → List Char
  | _, [] => []
  | i, t :: ts => drawChar (rand i) (tagCharSet o t) ++ buildPassword o rand (i + 1) ts

/-- generatePassword (lines 33-148).  The in-place `positions.sort` with the
random comparator (lines 86-88) is modelled by an arbitrary permutation
`shuffled` of the position plan, a hypothesis of each theorem; the secure
per-position draws are modelled by the entropy oracle `rand`. -/
def generatePassword (options : GenOptions) (rand : Nat → Nat) (shuffled : List Char) : List Char :=
  buildPassword (normalizeOptions options) rand 0
    (shuffled.take (normalizeOptions options).length.toNat)

/-- Written from the spec sentence of claim C2 for comparison with the code:
the sum of the minimums of the enabled classes only. -/
def activeMinSum (o : MergedOptions) : Int :=
  (if o.uppercase then o.minUppercase else 0)
  + (if o.lowercase then o.minLowercase else 0)
  + (if o.number then o.minNumber else 0)
  + (if o.special then o.minSpecial else 0)

/-- Written from the spec sentence of claim C2 for comparison with the code:
the normalized length if only active minimums were counted. -/
def claimedNormalizedLength (options : GenOptions) : Int :=
  let o := defaultLength (sanitizeMins (mergeOptions options))
  if o.length < activeMinSum o then activeMinSum o else o.length

/-- The C2 input that separates the spec wording from the code: length 10 with
a huge minimum on the disabled special class. -/
def exC2 : GenOptions := { length := some 10, minSpecial := some 100 }

/-- The concrete example of claim C2: all four classes enabled, minimum 5
each, requested length 10. -/
def exC2all : GenOptions :=
  { length := some 10
    uppercase := some true, minUppercase := some 5
    lowercase := some true, minLowercase := some 5
    number := some true, minNumber := some 5
    special := some true, minSpecial := some 5 }

/-- C2 counterexample: on input {length: 10, minSpecial: 100} (special stays
disabled by default), the sum of active minimums is 3, so per the claim the
length would stay 10; the code sums the minimums of all four classes,
enabled or not, and raises the length to 103. -/
theorem generatePassword_length_active_only_counterexample :
    (normalizeOptions exC2).length = 103 ∧ claimedNormalizedLength exC2 = 10 := by
  constructor <;> decide

/-- C2 (amended): after defaults, sanitization and length defaulting, the
length is raised exactly when the sum of all four minimum fields, of enabled
and of disabled classes alike, exceeds it, and it is raised to that sum; the
concrete instance with all four classes enabled at minimum 5 and length 10
still normalizes to 20. -/
theorem generatePassword_length_raising (options : GenOptions) :
    ((normalizeOptions options).length
        = max (defaultLength (sanitizeMins (mergeOptions options))).length
            (minLengthOf (defaultLength (sanitizeMins (mergeOptions options))))) ∧
    ((normalizeOptions options).length ≠ (defaultLength (sanitizeMins (mergeOptions options))).length
        ↔ (defaultLength (sanitizeMins (mergeOptions options))).length
            < minLengthOf (defaultLength (sanitizeMins (mergeOptions options)))) ∧
    (normalizeOptions exC2all).length = 20 := by
  refine ⟨?_, ?_, by decide⟩
  · unfold normalizeOptions raiseLength
    split_ifs with h <;> simp <;> omega
  · unfold normalizeOptions raiseLength
    split_ifs with h <;> simp <;> omega

/-- A fixed entropy oracle used in concrete instances: every draw is 0. -/
def zeroRand : Nat → Nat := fun _ => 0

/-- Whether at least one character-class toggle is enabled. -/
def someClassEnabled (o : MergedOptions) : Bool :=
  o.lowercase || o.uppercase || o.number || o.special

lemma lowercaseCharSet_ne_nil (b : Bool) : lowercaseCharSet b ≠ [] := by
  cases b <;> decide

lemma uppercaseCharSet_ne_nil (b : Bool) : uppercaseCharSet b ≠ [] := by
  cases b <;> decide

lemma numberCharSet_ne_nil (b : Bool) : numberCharSet b ≠ [] := by
  cases b <;> decide

lemma specialCharSet_ne_nil : specialCharSet ≠ [] := by decide

lemma allCharSet_ne_nil (o : MergedOptions) (h : someClassEnabled o = true) :
    allCharSet o ≠ [] := by
  have hx : 0 < (allCharSet o).length := by
    unfold someClassEnabled at h
    simp only [Bool.or_eq_true] at h
    unfold allCharSet
    rw [List.length_append, List.length_append, List.length_append]
    rcases h with ((hl | hu) | hn) | hs
    · have h1 : 0 < (lowercaseCharSet o.ambiguous).length := by
        cases o.ambiguous <;> decide
      simp only [hl, if_true]
      omega
    · have h1 : 0 < (uppercaseCharSet o.ambiguous).length := by
        cases o.ambiguous <;> decide
      simp only [hu, if_true]
      omega
    · have h1 : 0 < (numberCharSet o.ambiguous).length := by
        cases o.ambiguous <;> decide
      simp only [hn, if_true]
      omega
    · have h1 : 0 < specialCharSet.length := by decide
      simp only [hs, if_true]
      omega
  exact List.length_pos.mp hx

lemma drawChar_of_ne_nil (v : Nat) (s : List Char) (hs : s ≠ []) :
    ∃ c, c ∈ s ∧ drawChar v s = [c] := by
  have hlen : 0 < s.length := List.length_pos.mpr hs
  have hle : (0 : Int) ≤ (s.length : Int) - 1 := by omega
  have hval : secureRandomNumber v 0 ((s.length : Int) - 1) = (v : Int) % (s.length : Int) := by
    unfold secureRandomNumber
    rw [if_pos hle]
    have hmod : (s.length : Int) - 1 - 0 + 1 = (s.length : Int) := by ring
    rw [hmod]
    ring
  have hnn : (0 : Int) ≤ (v : Int) % (s.length : Int) := Int.emod_nonneg _ (by omega)
  have hlt : (v : Int) % (s.length : Int) < (s.length : Int) := Int.emod_lt_of_pos _ (by omega)
  unfold drawChar
  rw [hval]
  unfold charAt
  have hcond : 0 ≤ (v : Int) % (s.length : Int) ∧
      ((v : Int) % (s.length : Int)).toNat < s.length := by
    constructor
    · exact hnn
    · omega
  rw [dif_pos hcond]
  exact ⟨_, List.get_mem _ _ _, rfl⟩

lemma mem_drawChar (v : Nat) (s : List Char) (c : Char) (hc : c ∈ drawChar v s) : c ∈ s := by
  unfold drawChar charAt at hc
  split at hc
  · simp only [List.mem_singleton] at hc
    subst hc
    exact List.get_mem _ _ _
  · simp at hc

lemma buildPassword_length_eq (o : MergedOptions) (rand : Nat → Nat) :
    ∀ (i : Nat) (tags : List Char), (∀ t ∈ tags, tagCharSet o t ≠ []) →
      (buildPassword o rand i tags).length = tags.length := by
  intro i tags
  induction tags generalizing i with
  | nil => intro _; rfl
  | cons t ts ih =>
    intro h
    have ht : tagCharSet o t ≠ [] := h t (List.mem_cons_self t ts)
    obtain ⟨c, _, hdraw⟩ := drawChar_of_ne_nil (rand i) _ ht
    simp only [buildPassword, hdraw, List.length_append, List.length_cons, List.length_nil]
    rw [ih (i + 1) (fun u hu => h u (List.mem_cons_of_mem _ hu))]
    omega

lemma mem_buildPassword (o : MergedOptions) (rand : Nat → Nat) :
    ∀ (i : Nat) (tags : List Char) (c : Char), c ∈ buildPassword o rand i tags →
      ∃ t ∈ tags, c ∈ tagCharSet o t := by
  intro i tags
  induction tags generalizing i with
  | nil => intro c hc; simp [buildPassword] at hc
  | cons t ts ih =>
    intro c hc
    simp only [buildPassword, List.mem_append] at hc
    rcases hc with hc | hc
    · exact ⟨t, List.mem_cons_self t ts, mem_drawChar _ _ _ hc⟩
    · obtain ⟨u, hu, hcu⟩ := ih (i + 1) c hc
      exact ⟨u, List.mem_cons_of_mem _ hu, hcu⟩

lemma countP_buildPassword (o : MergedOptions) (rand : Nat → Nat) (p : Char → Bool) (tag : Char)
    (hs : tagCharSet o tag ≠ []) (hsub : ∀ c ∈ tagCharSet o tag, p c = true) :
    ∀ (i : Nat) (tags : List Char),
      tags.count tag ≤ (buildPassword o rand i tags).countP p := by
  intro i tags
  induction tags generalizing i with
  | nil => simp [buildPassword]
  | cons t ts ih =>
    simp only [buildPassword, List.countP_append, List.count_cons]
    by_cases ht : t = tag
    · subst ht
      obtain ⟨c, hcmem, hdraw⟩ := drawChar_of_ne_nil (rand i) _ hs
      have hpc : p c = true := hsub c hcmem
      rw [hdraw]
      simp only [List.countP_cons, List.countP_nil, hpc, if_true, beq_self_eq_true]
      have := ih (i + 1)
      omega
    · have hbe : (t == tag) = false := by
        simp [ht]
      simp only [hbe, Bool.false_eq_true, if_false]
      have := ih (i + 1)
      omega

lemma length_buildPositions_ge (o : MergedOptions) :
    o.length.toNat ≤ (buildPositions o).length := by
  simp only [buildPositions, List.length_append, List.length_replicate]
  omega

lemma tagCharSet_ne_nil_of_mem (o : MergedOptions) (hsome : someClassEnabled o = true)
    (t : Char) (ht : t ∈ buildPositions o) : tagCharSet o t ≠ [] := by
  simp only [buildPositions, List.mem_append] at ht
  rcases ht with (((h1 | h2) | h3) | h4) | h5
  · split_ifs at h1
    · have he := List.eq_of_mem_replicate h1
      subst he
      unfold tagCharSet
      rw [if_pos rfl]
      exact lowercaseCharSet_ne_nil _
    · simp at h1
  · split_ifs at h2
    · have he := List.eq_of_mem_replicate h2
      subst he
      unfold tagCharSet
      rw [if_neg (by decide), if_pos rfl]
      exact uppercaseCharSet_ne_nil _
    · simp at h2
  · split_ifs at h3
    · have he := List.eq_of_mem_replicate h3
      subst he
      unfold tagCharSet
      rw [if_neg (by decide), if_neg (by decide), if_pos rfl]
      exact numberCharSet_ne_nil _
    · simp at h3
  · split_ifs at h4
    · have he := List.eq_of_mem_replicate h4
      subst he
      unfold tagCharSet
      rw [if_neg (by decide), if_neg (by decide), if_neg (by decide), if_pos rfl]
      exact specialCharSet_ne_nil
    · simp at h4
  · have he := List.eq_of_mem_replicate h5
    subst he
    unfold tagCharSet
    rw [if_neg (by decide), if_neg (by decide), if_neg (by decide), if_neg (by decide),
      if_pos rfl]
    exact allCharSet_ne_nil o hsome

/-- The four character classes of the generator. -/
inductive CharClass where
  | lower
  | upper
  | num
  | special
deriving DecidableEq

/-- The toggle of a class in a merged options object. -/
def classEnabled (o : MergedOptions) : CharClass → Bool
  | .lower => o.lowercase
  | .upper => o.uppercase
  | .num => o.number
  | .special => o.special

/-- The minimum-count field of a class in a merged options object. -/
def classMin (o : MergedOptions) : CharClass → Int
  | .lower => o.minLowercase
  | .upper => o.minUppercase
  | .num => o.minNumber
  | .special => o.minSpecial

/-- The character set of a class under the options object's ambiguous flag. -/
def classSet (o : MergedOptions) : CharClass → List Char
  | .lower => lowercaseCharSet o.ambiguous
  | .upper => uppercaseCharSet o.ambiguous
  | .num => numberCharSet o.ambiguous
  | .special => specialCharSet

/-- The position-plan tag of a class. -/
def classTag : CharClass → Char
  | .lower => 'l'
  | .upper => 'u'
  | .num => 'n'
  | .special => 's'

lemma sanitizeUpper_shape (o : MergedOptions) :
    ∃ a, sanitizeUpper o = { o with minUppercase := a } := by
  unfold sanitizeUpper
  split_ifs <;> exact ⟨_, rfl⟩

lemma sanitizeLower_shape (o : MergedOptions) :
    ∃ a, sanitizeLower o = { o with minLowercase := a } := by
  unfold sanitizeLower
  split_ifs <;> exact ⟨_, rfl⟩

lemma sanitizeNumber_shape (o : MergedOptions) :
    ∃ a, sanitizeNumber o = { o with minNumber := a } := by
  unfold sanitizeNumber
  split_ifs <;> exact ⟨_, rfl⟩

lemma sanitizeSpecial_shape (o : MergedOptions) :
    ∃ a, sanitizeSpecial o = { o with minSpecial := a } := by
  unfold sanitizeSpecial
  split_ifs <;> exact ⟨_, rfl⟩

lemma sanitizeMins_shape (o : MergedOptions) :
    ∃ a b c d, sanitizeMins o =
      { o with minUppercase := a, minLowercase := b, minNumber := c, minSpecial := d } := by
  obtain ⟨a, h1⟩ := sanitizeUpper_shape o
  obtain ⟨b, h2⟩ := sanitizeLower_shape (sanitizeUpper o)
  obtain ⟨c, h3⟩ := sanitizeNumber_shape (sanitizeLower (sanitizeUpper o))
  obtain ⟨d, h4⟩ := sanitizeSpecial_shape (sanitizeNumber (sanitizeLower (sanitizeUpper o)))
  refine ⟨a, b, c, d, ?_⟩
  unfold sanitizeMins
  rw [h4, h3, h2, h1]

lemma defaultLength_shape (o : MergedOptions) :
    ∃ L, defaultLength o = { o with length := L } := by
  unfold defaultLength
  split_ifs <;> exact ⟨_, rfl⟩

lemma raiseLength_shape (o : MergedOptions) :
    ∃ L, raiseLength o = { o with length := L } := by
  unfold raiseLength
  split_ifs <;> exact ⟨_, rfl⟩

lemma normalizeOptions_shape (options : GenOptions) :
    ∃ a b c d L, normalizeOptions options =
      { mergeOptions options with
          minUppercase := a, minLowercase := b, minNumber := c, minSpecial := d,
          length := L } := by
  obtain ⟨a, b, c, d, h1⟩ := sanitizeMins_shape (mergeOptions options)
  obtain ⟨L2, h2⟩ := defaultLength_shape (sanitizeMins (mergeOptions options))
  obtain ⟨L3, h3⟩ := raiseLength_shape (defaultLength (sanitizeMins (mergeOptions options)))
  refine ⟨a, b, c, d, L3, ?_⟩
  unfold normalizeOptions
  rw [h3, h2, h1]

lemma sanitizeUpper_eq_self (o : MergedOptions) (hU : 0 ≤ o.minUppercase) :
    sanitizeUpper o = o := by
  unfold sanitizeUpper
  exact if_neg (fun hh => absurd hh.2 (by omega))

lemma sanitizeLower_eq_self (o : MergedOptions) (hL : 0 ≤ o.minLowercase) :
    sanitizeLower o = o := by
  unfold sanitizeLower
  exact if_neg (fun hh => absurd hh.2 (by omega))

lemma sanitizeNumber_eq_self (o : MergedOptions) (hN : 0 ≤ o.minNumber) :
    sanitizeNumber o = o := by
  unfold sanitizeNumber
  exact if_neg (fun hh => absurd hh.2 (by omega))

lemma sanitizeSpecial_eq_self (o : MergedOptions) (hS : 0 ≤ o.minSpecial) :
    sanitizeSpecial o = o := by
  unfold sanitizeSpecial
  exact if_neg (fun hh => absurd hh.2 (by omega))

lemma sanitizeMins_eq_self (o : MergedOptions)
    (hU : 0 ≤ o.minUppercase) (hL : 0 ≤ o.minLowercase)
    (hN : 0 ≤ o.minNumber) (hS : 0 ≤ o.minSpecial) :
    sanitizeMins o = o := by
  unfold sanitizeMins
  rw [sanitizeUpper_eq_self o hU, sanitizeLower_eq_self o hL,
    sanitizeNumber_eq_self o hN, sanitizeSpecial_eq_self o hS]

lemma minLengthOf_raiseLength_le (x : MergedOptions) :
    minLengthOf (raiseLength x) ≤ (raiseLength x).length := by
  unfold raiseLength minLengthOf
  split_ifs with h
  · simp
  · omega

lemma minLengthOf_normalizeOptions_le (options : GenOptions) :
    minLengthOf (normalizeOptions options) ≤ (normalizeOptions options).length :=
  minLengthOf_raiseLength_le (defaultLength (sanitizeMins (mergeOptions options)))

lemma length_buildPositions_eq (o : MergedOptions)
    (hU : 0 ≤ o.minUppercase) (hL : 0 ≤ o.minLowercase)
    (hN : 0 ≤ o.minNumber) (hS : 0 ≤ o.minSpecial)
    (hlen : minLengthOf o ≤ o.length) :
    (buildPositions o).length = o.length.toNat := by
  unfold minLengthOf at hlen
  simp only [buildPositions, List.length_append, List.length_replicate]
  split_ifs <;> simp only [List.length_replicate, List.length_nil] <;> omega

lemma count_buildPositions (o : MergedOptions) (C : CharClass)
    (hen : classEnabled o C = true) :
    (classMin o C).toNat ≤ (buildPositions o).count (classTag C) := by
  cases C <;>
    simp only [classEnabled] at hen <;>
    simp only [classTag, classMin] <;>
    simp only [buildPositions, List.count_append, List.count_replicate] <;>
    split_ifs <;>
    simp_all [List.count_replicate]

/-- C3 (amended): whenever at least one character class is enabled, the
generated password has exactly the normalized length, for every behaviour of
the entropy oracle and of the shuffle. -/
theorem generatePassword_length (options : GenOptions) (rand : Nat → Nat) (shuffled : List Char)
    (hperm : shuffled.Perm (buildPositions (normalizeOptions options)))
    (hsome : someClassEnabled (normalizeOptions options) = true) :
    (generatePassword options rand shuffled).length
      = (normalizeOptions options).length.toNat := by
  have hge : (normalizeOptions options).length.toNat
      ≤ (buildPositions (normalizeOptions options)).length :=
    length_buildPositions_ge (normalizeOptions options)
  have hslen : shuffled.length = (buildPositions (normalizeOptions options)).length :=
    hperm.length_eq
  have htake : (shuffled.take (normalizeOptions options).length.toNat).length
      = (normalizeOptions options).length.toNat := by
    rw [List.length_take]
    omega
  unfold generatePassword
  rw [buildPassword_length_eq (normalizeOptions options) rand 0 _ ?_]
  · exact htake
  · intro t ht
    have ht2 : t ∈ shuffled := List.take_subset _ _ ht
    have ht3 : t ∈ buildPositions (normalizeOptions options) := hperm.mem_iff.mp ht2
    exact tagCharSet_ne_nil_of_mem _ hsome t ht3

/-- The C3 separating input: all four character classes disabled. -/
def exC3 : GenOptions :=
  { lowercase := some false, uppercase := some false,
    number := some false, special := some false }

/-- C3 counterexample: with every character class disabled the combined "any"
pool is empty, so every draw appends no character (String.charAt out of an
empty string) and the password is empty, although the normalized length
is 14. -/
theorem generatePassword_length_counterexample :
    (generatePassword exC3 zeroRand (buildPositions (normalizeOptions exC3))).length = 0 ∧
    (normalizeOptions exC3).length = 14 := by
  constructor <;> decide

/-- Closed instance of generatePassword_length at the all-default options. -/
theorem generatePassword_length_witness :
    someClassEnabled (normalizeOptions {}) = true ∧
    (generatePassword {} zeroRand (buildPositions (normalizeOptions {}))).length
      = (normalizeOptions {}).length.toNat :=
  ⟨by decide,
   generatePassword_length {} zeroRand (buildPositions (normalizeOptions {}))
     (List.Perm.refl _) (by decide)⟩

lemma classSet_ne_nil (o : MergedOptions) (C : CharClass) : classSet o C ≠ [] := by
  cases C
  · exact lowercaseCharSet_ne_nil _
  · exact uppercaseCharSet_ne_nil _
  · exact numberCharSet_ne_nil _
  · exact specialCharSet_ne_nil

lemma tagCharSet_classTag (o : MergedOptions) (C : CharClass) :
    tagCharSet o (classTag C) = classSet o C := by
  cases C
  · unfold tagCharSet classTag classSet
    rw [if_pos rfl]
  · unfold tagCharSet classTag classSet
    rw [if_neg (by decide), if_pos rfl]
  · unfold tagCharSet classTag classSet
    rw [if_neg (by decide), if_neg (by decide), if_pos rfl]
  · unfold tagCharSet classTag classSet
    rw [if_neg (by decide), if_neg (by decide), if_neg (by decide), if_pos rfl]

/-- C4 (amended): for every option set in which all four minimum fields of the
merged options are nonnegative and class C is enabled, the password contains
at least classMin C characters of class C's set, for every entropy-oracle
behaviour and every shuffle. -/
theorem generatePassword_min_counts (options : GenOptions) (rand : Nat → Nat)
    (shuffled : List Char) (C : CharClass)
    (hperm : shuffled.Perm (buildPositions (normalizeOptions options)))
    (hU : 0 ≤ (mergeOptions options).minUppercase)
    (hL : 0 ≤ (mergeOptions options).minLowercase)
    (hN : 0 ≤ (mergeOptions options).minNumber)
    (hS : 0 ≤ (mergeOptions options).minSpecial)
    (hC : classEnabled (mergeOptions options) C = true) :
    (classMin (mergeOptions options) C).toNat ≤
      (generatePassword options rand shuffled).countP
        (fun c => decide (c ∈ classSet (mergeOptions options) C)) := by
  have hsan := sanitizeMins_eq_self (mergeOptions options) hU hL hN hS
  obtain ⟨L2, h2⟩ := defaultLength_shape (mergeOptions options)
  obtain ⟨L3, h3⟩ := raiseLength_shape (defaultLength (mergeOptions options))
  have hno : normalizeOptions options = { mergeOptions options with length := L3 } := by
    unfold normalizeOptions
    rw [hsan, h3, h2]
  have hminle : minLengthOf (normalizeOptions options) ≤ (normalizeOptions options).length :=
    minLengthOf_normalizeOptions_le options
  have hplen : (buildPositions (normalizeOptions options)).length
      = (normalizeOptions options).length.toNat :=
    length_buildPositions_eq _ (by rw [hno]; exact hU) (by rw [hno]; exact hL)
      (by rw [hno]; exact hN) (by rw [hno]; exact hS) hminle
  have hslen : shuffled.length = (normalizeOptions options).length.toNat := by
    rw [hperm.length_eq, hplen]
  have htake : shuffled.take (normalizeOptions options).length.toNat = shuffled := by
    rw [← hslen]
    exact List.take_length shuffled
  have htag : tagCharSet (normalizeOptions options) (classTag C)
      = classSet (mergeOptions options) C := by
    rw [tagCharSet_classTag, hno]
    cases C <;> rfl
  have hsetne : tagCharSet (normalizeOptions options) (classTag C) ≠ [] := by
    rw [htag]
    exact classSet_ne_nil _ C
  have hsub : ∀ ch ∈ tagCharSet (normalizeOptions options) (classTag C),
      (fun ch => decide (ch ∈ classSet (mergeOptions options) C)) ch = true := by
    intro ch hch
    rw [htag] at hch
    simpa using hch
  have hen : classEnabled (normalizeOptions options) C = true := by
    rw [hno]
    cases C <;> exact hC
  have hcm : classMin (normalizeOptions options) C = classMin (mergeOptions options) C := by
    rw [hno]
    cases C <;> rfl
  have hcount := count_buildPositions (normalizeOptions options) C hen
  rw [hcm] at hcount
  calc (classMin (mergeOptions options) C).toNat
      ≤ (buildPositions (normalizeOptions options)).count (classTag C) := hcount
    _ = shuffled.count (classTag C) := (hperm.count_eq _).symm
    _ = (shuffled.take (normalizeOptions options).length.toNat).count (classTag C) := by
        rw [htake]
    _ ≤ (generatePassword options rand shuffled).countP
        (fun c => decide (c ∈ classSet (mergeOptions options) C)) :=
      countP_buildPassword _ rand _ (classTag C) hsetne hsub 0 _

/-- The C4 separating input: lowercase enabled with minimum 10, the disabled
number class carrying minimum -20, requested length 5. -/
def exC4 : GenOptions :=
  { length := some 5
    lowercase := some true, minLowercase := some 10
    uppercase := some false
    number := some false, minNumber := some (-20)
    special := some false }

/-- C4 counterexample: the negative minimum of the disabled number class is
not sanitized and deflates minLength to -8, so the length stays 5 and only 5
of the 10 lowercase position tags survive; the password contains 5 lowercase
characters although minLowercase is 10. -/
theorem generatePassword_min_counts_counterexample :
    classEnabled (mergeOptions exC4) CharClass.lower = true ∧
    classMin (mergeOptions exC4) CharClass.lower = 10 ∧
    (generatePassword exC4 zeroRand (buildPositions (normalizeOptions exC4))).countP
        (fun c => decide (c ∈ classSet (mergeOptions exC4) CharClass.lower)) = 5 := by
  refine ⟨by decide, by decide, by decide⟩

/-- Closed instance of generatePassword_min_counts at the all-default options
and the lowercase class. -/
theorem generatePassword_min_counts_witness :
    0 ≤ (mergeOptions {}).minUppercase ∧ 0 ≤ (mergeOptions {}).minLowercase ∧
    0 ≤ (mergeOptions {}).minNumber ∧ 0 ≤ (mergeOptions {}).minSpecial ∧
    classEnabled (mergeOptions {}) CharClass.lower = true ∧
    (classMin (mergeOptions {}) CharClass.lower).toNat ≤
      (generatePassword {} zeroRand (buildPositions (normalizeOptions {}))).countP
        (fun c => decide (c ∈ classSet (mergeOptions {}) CharClass.lower)) :=
  ⟨by decide, by decide, by decide, by decide, by decide,
   generatePassword_min_counts {} zeroRand (buildPositions (normalizeOptions {}))
     CharClass.lower (List.Perm.refl _) (by decide) (by decide) (by decide) (by decide)
     (by decide)⟩

/-- The four visually ambiguous glyphs excluded by default. -/
def forbiddenChar (c : Char) : Bool :=
  c == '0' || c == 'O' || c == '1' || c == 'l'

lemma lowercase_no_forbidden :
    (lowercaseCharSet false).all (fun c => !(forbiddenChar c)) = true := by decide

lemma uppercase_no_forbidden :
    (uppercaseCharSet false).all (fun c => !(forbiddenChar c)) = true := by decide

lemma number_no_forbidden :
    (numberCharSet false).all (fun c => !(forbiddenChar c)) = true := by decide

lemma special_no_forbidden :
    specialCharSet.all (fun c => !(forbiddenChar c)) = true := by decide

lemma not_forbidden_of_mem_all {s : List Char}
    (hall : s.all (fun c => !(forbiddenChar c)) = true) {c : Char} (hc : c ∈ s) :
    forbiddenChar c = false := by
  rw [List.all_eq_true] at hall
  have h := hall c hc
  simpa using h

lemma mem_tagCharSet_not_forbidden (o : MergedOptions) (hamb : o.ambiguous = false)
    (t c : Char) (hc : c ∈ tagCharSet o t) : forbiddenChar c = false := by
  unfold tagCharSet at hc
  split_ifs at hc
  · rw [hamb] at hc
    exact not_forbidden_of_mem_all lowercase_no_forbidden hc
  · rw [hamb] at hc
    exact not_forbidden_of_mem_all uppercase_no_forbidden hc
  · rw [hamb] at hc
    exact not_forbidden_of_mem_all number_no_forbidden hc
  · exact not_forbidden_of_mem_all special_no_forbidden hc
  · unfold allCharSet at hc
    rw [hamb] at hc
    simp only [List.mem_append] at hc
    rcases hc with ((hc | hc) | hc) | hc
    · split_ifs at hc
      · exact not_forbidden_of_mem_all lowercase_no_forbidden hc
      · simp at hc
    · split_ifs at hc
      · exact not_forbidden_of_mem_all uppercase_no_forbidden hc
      · simp at hc
    · split_ifs at hc
      · exact not_forbidden_of_mem_all number_no_forbidden hc
      · simp at hc
    · split_ifs at hc
      · exact not_forbidden_of_mem_all special_no_forbidden hc
      · simp at hc
  · simp at hc

lemma normalizeOptions_ambiguous (options : GenOptions) :
    (normalizeOptions options).ambiguous = (mergeOptions options).ambiguous := by
  obtain ⟨a, b, c, d, L, h⟩ := normalizeOptions_shape options
  rw [h]

/-- C5: with ambiguous=false (explicitly or by default) none of the characters
0, O, 1, l appears in the generated password, for every entropy-oracle
behaviour and every shuffle. -/
theorem generatePassword_no_ambiguous (options : GenOptions) (rand : Nat → Nat)
    (shuffled : List Char)
    (_hperm : shuffled.Perm (buildPositions (normalizeOptions options)))
    (hamb : (mergeOptions options).ambiguous = false) :
    (generatePassword options rand shuffled).all (fun c => !(forbiddenChar c)) = true := by
  have hambn : (normalizeOptions options).ambiguous = false := by
    rw [normalizeOptions_ambiguous, hamb]
  rw [List.all_eq_true]
  intro c hc
  unfold generatePassword at hc
  obtain ⟨t, _, hct⟩ := mem_buildPassword _ rand 0 _ c hc
  have hforb := mem_tagCharSet_not_forbidden _ hambn t c hct
  simp [hforb]

/-- Closed instance of generatePassword_no_ambiguous at the all-default
options. -/
theorem generatePassword_no_ambiguous_witness :
    (mergeOptions {}).ambiguous = false ∧
    (generatePassword {} zeroRand (buildPositions (normalizeOptions {}))).all
      (fun c => !(forbiddenChar c)) = true :=
  ⟨by decide,
   generatePassword_no_ambiguous {} zeroRand (buildPositions (normalizeOptions {}))
     (List.Perm.refl _) (by decide)⟩

/-- PasswordHistory (models/domain/passwordHistory): a password string (or a
ciphertext token in encrypted form) and an epoch-milliseconds timestamp. -/
structure PasswordHistory where
  password : String
  date : Int
deriving DecidableEq

/-- MaxPasswordsInHistory (line 30). -/
def MaxPasswordsInHistory : Nat := 100

/-- Counts of the calls made to the external collaborators during one
operation. -/
structure CallLog where
  getKeyCalls : Nat := 0
  storageGetCalls : Nat := 0
  storageSaveCalls : Nat := 0
  encryptCalls : Nat := 0
  decryptCalls : Nat := 0
deriving DecidableEq

/-- Modelled from the spec: the CryptoService collaborator (an abstraction, not
among the sources) offers a key-availability check and string
encryption/decryption; encrypt yields an opaque ciphertext token (the
CipherString's encryptedString), decrypt maps a token back to a plaintext. -/
structure CryptoEnv where
  hasKey : Bool
  enc : String → String
  dec : String → String

/-- The mutable service state: the in-memory cache field
(`private history: PasswordHistory[] = []`, line 151) and the storage slot
under the generatedPasswordHistory key.  `none` models a JS null/undefined,
`some l` an array value, which is truthy even when empty. -/
structure PGState where
  history : Option (List PasswordHistory)
  storedHistory : Option (List PasswordHistory)
deriving DecidableEq

/-- The state of a freshly constructed service over given storage contents:
the field initializer at line 151 sets the cache to the empty array. -/
def initState (stored : Option (List PasswordHistory)) : PGState :=
  { history := some [], storedHistory := stored }

/-- JS truthiness of the history field: null/undefined is falsy, every array
is truthy, the empty array included. -/
def arrayTruthy : Option (List PasswordHistory) → Bool
  | none => false
  | some _ => true

/-- matchesPrevious (lines 248-254): true when the history is non-null,
non-empty, and its last entry's password equals the argument. -/
def matchesPrevious (password : String) (history : List PasswordHistory) : Bool :=
  match history.getLast? with
  | none => false
  | some item => item.password == password

/-- decryptHistory (lines 235-246): null or empty yields the empty list, else
each entry's password field is decrypted and its date kept, in order. -/
def decryptHistory (dec : String → String) :
    Option (List PasswordHistory) → List PasswordHistory
  | none => []
  | some history =>
      if history.length = 0 then []
      else history.map (fun item => { password := dec item.password, date := item.date })

/-- encryptHistory (lines 222-233): null or empty yields the empty list, else
each entry's password field is encrypted and its date kept, in order. -/
def encryptHistory (enc : String → String) :
    Option (List PasswordHistory) → List PasswordHistory
  | none => []
  | some history =>
      if history.length = 0 then []
      else history.map (fun item => { password := enc item.password, date := item.date })

/-- getHistory (lines 178-190): empty result without touching storage when no
key is available; a storage load and decrypt only when the cache field is
falsy; otherwise the cached array.  Returns the list, the state after, and
the collaborator call counts (one decrypt per loaded entry). -/
def getHistory (env : CryptoEnv) (s : PGState) :
    List PasswordHistory × PGState × CallLog :=
  if env.hasKey = false then ([], s, { getKeyCalls := 1 })
  else if arrayTruthy s.history = false then
    let decrypted := decryptHistory env.dec s.storedHistory
    let s2 : PGState := { s with history := some decrypted }
    (s2.history.getD [], s2,
      { getKeyCalls := 1, storageGetCalls := 1, decryptCalls := decrypted.length })
  else (s.history.getD [], s, { getKeyCalls := 1 })

/-- addHistory (lines 192-215): no-op without a key; otherwise reads the
current history (the cache array itself), returns when the password matches
the last entry, else pushes a new entry (the push mutates the array shared
with the cache field), shifts the oldest entry off when the list exceeds the
capacity of 100, encrypts the whole list (one encrypt per entry) and saves it
to storage, replacing the prior value. -/
def addHistory (env : CryptoEnv) (now : Int) (password : String) (s : PGState) :
    PGState × CallLog :=
  if env.hasKey = false then (s, { getKeyCalls := 1 })
  else
    let r := getHistory env s
    let currentHistory := r.1
    let s1 := r.2.1
    let log1 := r.2.2
    let log2 : CallLog := { log1 with getKeyCalls := log1.getKeyCalls + 1 }
    if matchesPrevious password currentHistory then (s1, log2)
    else
      let pushed := currentHistory ++ [{ password := password, date := now }]
      let trimmed := if MaxPasswordsInHistory < pushed.length then pushed.drop 1 else pushed
      let newHistory := encryptHistory env.enc (some trimmed)
      ({ history := some trimmed, storedHistory := some newHistory },
        { log2 with
            encryptCalls := log2.encryptCalls + newHistory.length,
            storageSaveCalls := log2.storageSaveCalls + 1 })

/-- The password of the most recent (last) entry, if any. -/
def lastPassword (history : List PasswordHistory) : Option String :=
  history.getLast?.map (fun item => item.password)

lemma matchesPrevious_iff (p : String) (h : List PasswordHistory) :
    matchesPrevious p h = true ↔ (h ≠ [] ∧ lastPassword h = some p) := by
  unfold matchesPrevious lastPassword
  cases hgl : h.getLast? with
  | none =>
    simp
  | some e =>
    have hne : h ≠ [] := by
      rintro rfl
      simp at hgl
    simp [hne, beq_iff_eq]

lemma matchesPrevious_nil (p : String) : matchesPrevious p [] = false := rfl

lemma matchesPrevious_concat (p : String) (l : List PasswordHistory) (e : PasswordHistory) :
    matchesPrevious p (l ++ [e]) = (e.password == p) := by
  unfold matchesPrevious
  rw [List.getLast?_concat]

lemma matchesPrevious_singleton (p : String) (e : PasswordHistory) :
    matchesPrevious p [e] = (e.password == p) := by
  have h : [e] = [] ++ [e] := rfl
  rw [h, matchesPrevious_concat]

lemma matchesPrevious_pair (p : String) (e1 e2 : PasswordHistory) :
    matchesPrevious p [e1, e2] = (e2.password == p) := by
  have h : [e1, e2] = [e1] ++ [e2] := rfl
  rw [h, matchesPrevious_concat]

lemma addHistory_state (env : CryptoEnv) (now : Int) (p : String)
    (stored : Option (List PasswordHistory)) (h : List PasswordHistory)
    (hkey : env.hasKey = true) :
    (addHistory env now p { history := some h, storedHistory := stored }).1
      = if matchesPrevious p h
        then { history := some h, storedHistory := stored }
        else
          { history := some
              (if MaxPasswordsInHistory
                    < (h ++ [({ password := p, date := now } : PasswordHistory)]).length
                then (h ++ [({ password := p, date := now } : PasswordHistory)]).drop 1
                else h ++ [({ password := p, date := now } : PasswordHistory)]),
            storedHistory := some (encryptHistory env.enc (some
              (if MaxPasswordsInHistory
                    < (h ++ [({ password := p, date := now } : PasswordHistory)]).length
                then (h ++ [({ password := p, date := now } : PasswordHistory)]).drop 1
                else h ++ [({ password := p, date := now } : PasswordHistory)]))) } := by
  unfold addHistory getHistory
  rw [hkey]
  by_cases hm : matchesPrevious p h
  · simp [arrayTruthy, hm]
  · simp [arrayTruthy, hm]

/-- A non-empty persisted ciphertext list used as the C1 failing input. -/
def exStored : List PasswordHistory := [{ password := "2.ciphertext", date := 99 }]

/-- C1 evidence: on a freshly constructed service (cache field initialized to
the empty array) with an available key and a non-empty persisted history, the
first getHistory call performs no storage get and no decrypt call and returns
the empty list, leaving the stored ciphertext unread: the load branch guarded
by `!this.history` is dead because an empty array is truthy. -/
theorem getHistory_never_loads_storage :
    getHistory { hasKey := true, enc := id, dec := id } (initState (some exStored))
      = ([], initState (some exStored), { getKeyCalls := 1 }) := by
  rfl

/-- C6: addHistory inserts a new entry exactly when the history is empty or
its last entry's password differs from the argument; two immediate calls with
the same password store one entry, while the sequence p, q, p (q different)
stores p twice, since only the immediate predecessor is checked. -/
theorem addHistory_last_entry_dedup (env : CryptoEnv) (now1 now2 now3 : Int) (p q : String)
    (stored : Option (List PasswordHistory)) (h : List PasswordHistory)
    (hkey : env.hasKey = true) (hpq : p ≠ q) :
    ((addHistory env now1 p { history := some h, storedHistory := stored }).1.history
        = some (if h = [] ∨ lastPassword h ≠ some p
            then
              if MaxPasswordsInHistory
                    < (h ++ [({ password := p, date := now1 } : PasswordHistory)]).length
              then (h ++ [({ password := p, date := now1 } : PasswordHistory)]).drop 1
              else h ++ [({ password := p, date := now1 } : PasswordHistory)]
            else h))
    ∧ ((addHistory env now2 p ((addHistory env now1 p (initState stored)).1)).1.history
        = some [{ password := p, date := now1 }])
    ∧ ((addHistory env now3 p ((addHistory env now2 q
          ((addHistory env now1 p (initState stored)).1)).1)).1.history
        = some [{ password := p, date := now1 }, { password := q, date := now2 },
                { password := p, date := now3 }]) := by
  have hstep1 : (addHistory env now1 p (initState stored)).1
      = { history := some [({ password := p, date := now1 } : PasswordHistory)],
          storedHistory := some (encryptHistory env.enc
            (some [({ password := p, date := now1 } : PasswordHistory)])) } := by
    rw [show initState stored
        = { history := some ([] : List PasswordHistory), storedHistory := stored } from rfl]
    rw [addHistory_state env now1 p stored [] hkey]
    simp [matchesPrevious_nil, MaxPasswordsInHistory]
  refine ⟨?_, ?_, ?_⟩
  · by_cases hm : matchesPrevious p h = true
    · have hcond : ¬(h = [] ∨ lastPassword h ≠ some p) := by
        obtain ⟨hne, hlast⟩ := (matchesPrevious_iff p h).mp hm
        push_neg
        exact ⟨hne, hlast⟩
      rw [if_neg hcond, addHistory_state env now1 p stored h hkey, if_pos hm]
    · have hcond : h = [] ∨ lastPassword h ≠ some p := by
        by_contra hcon
        push_neg at hcon
        exact hm ((matchesPrevious_iff p h).mpr ⟨hcon.1, hcon.2⟩)
      rw [if_pos hcond, addHistory_state env now1 p stored h hkey, if_neg hm]
  · rw [hstep1, addHistory_state env now2 p _ _ hkey, matchesPrevious_singleton]
    simp
  · have hstep2 : (addHistory env now2 q ((addHistory env now1 p (initState stored)).1)).1
        = { history := some [({ password := p, date := now1 } : PasswordHistory),
              ({ password := q, date := now2 } : PasswordHistory)],
            storedHistory := some (encryptHistory env.enc
              (some [({ password := p, date := now1 } : PasswordHistory),
                ({ password := q, date := now2 } : PasswordHistory)])) } := by
      rw [hstep1, addHistory_state env now2 q _ _ hkey, matchesPrevious_singleton]
      have hb : (p == q) = false := beq_eq_false_iff_ne.mpr hpq
      simp [hb, MaxPasswordsInHistory]
    rw [hstep2, addHistory_state env now3 p _ _ hkey, matchesPrevious_pair]
    have hb : (q == p) = false := beq_eq_false_iff_ne.mpr (Ne.symm hpq)
    simp [hb, MaxPasswordsInHistory]

/-- Closed instance of addHistory_last_entry_dedup. -/
theorem addHistory_last_entry_dedup_witness :
    ({ hasKey := true, enc := id, dec := id } : CryptoEnv).hasKey = true ∧
    ("a" : String) ≠ "b" ∧
    (((addHistory { hasKey := true, enc := id, dec := id } 1 "a"
          { history := some [], storedHistory := none }).1.history
        = some (if ([] : List PasswordHistory) = [] ∨ lastPassword [] ≠ some "a"
            then
              if MaxPasswordsInHistory
                    < (([] : List PasswordHistory)
                        ++ [({ password := "a", date := 1 } : PasswordHistory)]).length
              then (([] : List PasswordHistory)
                        ++ [({ password := "a", date := 1 } : PasswordHistory)]).drop 1
              else ([] : List PasswordHistory)
                        ++ [({ password := "a", date := 1 } : PasswordHistory)]
            else []))
      ∧ ((addHistory { hasKey := true, enc := id, dec := id } 2 "a"
            ((addHistory { hasKey := true, enc := id, dec := id } 1 "a"
              (initState none)).1)).1.history
          = some [{ password := "a", date := 1 }])
      ∧ ((addHistory { hasKey := true, enc := id, dec := id } 3 "a"
            ((addHistory { hasKey := true, enc := id, dec := id } 2 "b"
              ((addHistory { hasKey := true, enc := id, dec := id } 1 "a"
                (initState none)).1)).1)).1.history
          = some [{ password := "a", date := 1 }, { password := "b", date := 2 },
                  { password := "a", date := 3 }])) :=
  ⟨rfl, by decide,
   addHistory_last_entry_dedup { hasKey := true, enc := id, dec := id } 1 2 3 "a" "b"
     none [] rfl (by decide)⟩

/-- C7: under the reachable-state bound that the cache holds at most 100
entries, addHistory never leaves more than 100; and inserting into a list of
exactly 100 entries drops exactly the oldest entry (index 0), keeps the other
99 followed by the new entry, and ends at length 100. -/
theorem addHistory_capacity (env : CryptoEnv) (now : Int) (p : String)
    (stored : Option (List PasswordHistory)) (h : List PasswordHistory)
    (hkey : env.hasKey = true) (hlen : h.length ≤ 100) :
    (((addHistory env now p { history := some h, storedHistory := stored }).1.history).getD
        []).length ≤ 100
    ∧ (h.length = 100 → matchesPrevious p h = false →
        ((addHistory env now p { history := some h, storedHistory := stored }).1.history).getD []
            = h.drop 1 ++ [({ password := p, date := now } : PasswordHistory)]
          ∧ (((addHistory env now p
              { history := some h, storedHistory := stored }).1.history).getD []).length
            = 100) := by
  rw [addHistory_state env now p stored h hkey]
  by_cases hm : matchesPrevious p h = true
  · rw [if_pos hm]
    refine ⟨by simpa using hlen, ?_⟩
    intro _ hmf
    rw [hm] at hmf
    cases hmf
  · rw [if_neg hm]
    simp only [Option.getD_some, MaxPasswordsInHistory]
    constructor
    · split_ifs with htrim
      · simp only [List.length_drop, List.length_append, List.length_cons, List.length_nil]
        omega
      · simp only [List.length_append, List.length_cons, List.length_nil] at htrim ⊢
        omega
    · intro h100 _
      have htrim : 100 < (h ++ [({ password := p, date := now } : PasswordHistory)]).length := by
        simp only [List.length_append, List.length_cons, List.length_nil]
        omega
      rw [if_pos htrim]
      constructor
      · rw [List.drop_append_of_le_length (by omega)]
      · simp only [List.length_drop, List.length_append, List.length_cons, List.length_nil]
        omega

/-- Closed instance of addHistory_capacity at a full 100-entry history. -/
theorem addHistory_capacity_witness :
    ({ hasKey := true, enc := id, dec := id } : CryptoEnv).hasKey = true ∧
    (List.replicate 100 ({ password := "x", date := 0 } : PasswordHistory)).length ≤ 100 ∧
    ((((addHistory { hasKey := true, enc := id, dec := id } 5 "y"
        { history := some (List.replicate 100 ({ password := "x", date := 0 } : PasswordHistory)),
          storedHistory := none }).1.history).getD []).length ≤ 100
      ∧ ((List.replicate 100 ({ password := "x", date := 0 } : PasswordHistory)).length = 100 →
          matchesPrevious "y"
              (List.replicate 100 ({ password := "x", date := 0 } : PasswordHistory)) = false →
          ((addHistory { hasKey := true, enc := id, dec := id } 5 "y"
              { history := some
                  (List.replicate 100 ({ password := "x", date := 0 } : PasswordHistory)),
                storedHistory := none }).1.history).getD []
              = (List.replicate 100 ({ password := "x", date := 0 } : PasswordHistory)).drop 1
                  ++ [({ password := "y", date := 5 } : PasswordHistory)]
            ∧ (((addHistory { hasKey := true, enc := id, dec := id } 5 "y"
                { history := some
                    (List.replicate 100 ({ password := "x", date := 0 } : PasswordHistory)),
                  storedHistory := none }).1.history).getD []).length = 100)) :=
  ⟨rfl, by decide,
   addHistory_capacity { hasKey := true, enc := id, dec := id } 5 "y" none
     (List.replicate 100 ({ password := "x", date := 0 } : PasswordHistory)) rfl (by decide)⟩

/-- C8: when decrypt inverts encrypt, decrypting an encrypted non-empty
history gives back the original list: per-entry password round trip, dates
passed through, order preserved. -/
theorem history_roundtrip (enc dec : String → String) (hinv : ∀ s, dec (enc s) = s)
    (L : List PasswordHistory) (hL : L ≠ []) :
    decryptHistory dec (some (encryptHistory enc (some L))) = L := by
  have hlen : ¬(L.length = 0) := by
    intro h0
    exact hL (List.length_eq_zero.mp h0)
  have h1 : encryptHistory enc (some L)
      = L.map (fun item => { password := enc item.password, date := item.date }) := by
    simp only [encryptHistory]
    rw [if_neg hlen]
  rw [h1]
  simp only [decryptHistory]
  rw [List.length_map, if_neg hlen, List.map_map]
  have hfun : ∀ a ∈ L,
      ((fun item => ({ password := dec item.password, date := item.date } : PasswordHistory))
        ∘ (fun item => ({ password := enc item.password, date := item.date } : PasswordHistory)))
        a = id a := by
    intro a _
    simp [Function.comp, hinv]
  rw [List.map_congr_left hfun, List.map_id]

/-- Closed instance of history_roundtrip with the identity encryption stub. -/
theorem history_roundtrip_witness :
    (∀ s : String, id (id s) = s) ∧
    ([({ password := "pw", date := 7 } : PasswordHistory)] ≠ []) ∧
    decryptHistory id (some (encryptHistory id
        (some [({ password := "pw", date := 7 } : PasswordHistory)])))
      = [({ password := "pw", date := 7 } : PasswordHistory)] :=
  ⟨fun _ => rfl, by decide,
   history_roundtrip id id (fun _ => rfl)
     [({ password := "pw", date := 7 } : PasswordHistory)] (by decide)⟩

/-- C9: without an encryption key, getHistory returns the empty list and
addHistory returns, both leaving the state untouched and calling only the
key check: no storage get, no storage save, no encrypt, no decrypt. -/
theorem noKey_degrades (env : CryptoEnv) (s : PGState) (now : Int) (p : String)
    (hk : env.hasKey = false) :
    getHistory env s = ([], s, { getKeyCalls := 1 }) ∧
    addHistory env now p s = (s, { getKeyCalls := 1 }) := by
  unfold getHistory addHistory
  rw [hk]
  simp

/-- Closed instance of noKey_degrades. -/
theorem noKey_degrades_witness :
    ({ hasKey := false, enc := id, dec := id } : CryptoEnv).hasKey = false ∧
    (getHistory { hasKey := false, enc := id, dec := id } (initState none)
        = ([], initState none, { getKeyCalls := 1 }) ∧
      addHistory { hasKey := false, enc := id, dec := id } 0 "x" (initState none)
        = (initState none, { getKeyCalls := 1 })) :=
  ⟨rfl, noKey_degrades { hasKey := false, enc := id, dec := id } (initState none) 0 "x" rfl⟩

/-- The service states reachable from a fresh construction through getHistory
and addHistory calls. -/
inductive Reachable : PGState → Prop where
  | init : ∀ stored, Reachable (initState stored)
  | get : ∀ env s, Reachable s → Reachable (getHistory env s).2.1
  | add : ∀ env now p s, Reachable s → Reachable (addHistory env now p s).1

/-- In every reachable state the cache field is a (truthy) array of at most
100 entries, so the capacity hypothesis of the C7 theorem always holds. -/
lemma reachable_cache_bounded (s : PGState) (hs : Reachable s) :
    ∃ l, s.history = some l ∧ l.length ≤ 100 := by
  induction hs with
  | init stored => exact ⟨[], rfl, by simp⟩
  | get env s _ ih =>
    obtain ⟨l, hl, hlen⟩ := ih
    by_cases hk : env.hasKey = false
    · rw [getHistory, if_pos hk]
      exact ⟨l, hl, hlen⟩
    · rw [getHistory, if_neg hk, if_neg (by rw [hl]; simp [arrayTruthy])]
      exact ⟨l, hl, hlen⟩
  | add env now p s _ ih =>
    obtain ⟨l, hl, hlen⟩ := ih
    by_cases hk : env.hasKey = false
    · rw [addHistory, if_pos hk]
      exact ⟨l, hl, hlen⟩
    · have hk2 : env.hasKey = true := by
        cases hb : env.hasKey
        · exact absurd hb hk
        · rfl
      have hseq : s = { history := some l, storedHistory := s.storedHistory } := by
        cases s
        simp_all
      rw [hseq, addHistory_state env now p _ l hk2]
      split_ifs with hm htrim
      · exact ⟨l, rfl, hlen⟩
      · refine ⟨_, rfl, ?_⟩
        simp only [List.length_drop, List.length_append, List.length_cons, List.length_nil]
        simp only [MaxPasswordsInHistory, List.length_append, List.length_cons,
          List.length_nil] at htrim
        omega
      · refine ⟨_, rfl, ?_⟩
        simp only [MaxPasswordsInHistory, List.length_append, List.length_cons,
          List.length_nil] at htrim ⊢
        omega

/-- A heap of option objects addressed by object identity, for the mutation
claims: absent identity means no object lives there. -/
def Heap : Type := Nat → Option GenOptions

/-- A write to the object at identity t. -/
def updateHeap (h : Heap) (t : Nat) (v : GenOptions) : Heap :=
  fun x => if x = t then some v else h x

/-- The heap with no objects. -/
def emptyHeap : Heap := fun _ => none

/-- The module-level DefaultOptions constant viewed as a JS object: every
field present. -/
def DefaultOptionsObj : GenOptions :=
  { length := some 14, ambiguous := some false, number := some true, minNumber := some 1,
    uppercase := some true, minUppercase := some 1, lowercase := some true,
    minLowercase := some 1, special := some false, minSpecial := some 1 }

/-- Object.assign({}, a, b): the target is a fresh object; a present field of
b overrides, otherwise a's field is copied. -/
def assignObjs (a b : GenOptions) : GenOptions :=
  { length := b.length <|> a.length
    ambiguous := b.ambiguous <|> a.ambiguous
    number := b.number <|> a.number
    minNumber := b.minNumber <|> a.minNumber
    uppercase := b.uppercase <|> a.uppercase
    minUppercase := b.minUppercase <|> a.minUppercase
    lowercase := b.lowercase <|> a.lowercase
    minLowercase := b.minLowercase <|> a.minLowercase
    special := b.special <|> a.special
    minSpecial := b.minSpecial <|> a.minSpecial }

/-- JS comparison `x < i` over a possibly absent number: a comparison against
undefined is false. -/
def optLt (a : Option Int) (i : Int) : Bool :=
  match a with
  | some v => decide (v < i)
  | none => false

/-- JS condition `!o.length || o.length < 1` over a possibly absent number:
undefined and 0 are falsy. -/
def lengthFalsyOrBelow1 (a : Option Int) : Bool :=
  match a with
  | none => true
  | some v => decide (v = 0) || decide (v < 1)

/-- Line 35: `const o = Object.assign({}, DefaultOptions, options)` — the
fresh target at oRef is written from the objects read at defRef and
optsRef. -/
def assignStep (defRef optsRef oRef : Nat) (h : Heap) : Heap :=
  updateHeap h oRef (assignObjs ((h defRef).getD {}) ((h optsRef).getD {}))

/-- Lines 38-40: the write `o.minUppercase = 1` under its condition. -/
def sanitizeUpperStep (oRef : Nat) (h : Heap) : Heap :=
  let o := (h oRef).getD {}
  if o.uppercase.getD false = true ∧ optLt o.minUppercase 0 = true
  then updateHeap h oRef { o with minUppercase := some 1 } else h

/-- Lines 41-43. -/
def sanitizeLowerStep (oRef : Nat) (h : Heap) : Heap :=
  let o := (h oRef).getD {}
  if o.lowercase.getD false = true ∧ optLt o.minLowercase 0 = true
  then updateHeap h oRef { o with minLowercase := some 1 } else h

/-- Lines 44-46. -/
def sanitizeNumberStep (oRef : Nat) (h : Heap) : Heap :=
  let o := (h oRef).getD {}
  if o.number.getD false = true ∧ optLt o.minNumber 0 = true
  then updateHeap h oRef { o with minNumber := some 1 } else h

/-- Lines 47-49. -/
def sanitizeSpecialStep (oRef : Nat) (h : Heap) : Heap :=
  let o := (h oRef).getD {}
  if o.special.getD false = true ∧ optLt o.minSpecial 0 = true
  then updateHeap h oRef { o with minSpecial := some 1 } else h

/-- Lines 51-53: the write `o.length = 10` under its condition. -/
def defaultLengthStep (oRef : Nat) (h : Heap) : Heap :=
  let o := (h oRef).getD {}
  if lengthFalsyOrBelow1 o.length = true
  then updateHeap h oRef { o with length := some 10 } else h

/-- Lines 55-58: the write `o.length = minLength` under its condition. -/
def raiseLengthStep (oRef : Nat) (h : Heap) : Heap :=
  let o := (h oRef).getD {}
  let minLength := o.minUppercase.getD 0 + o.minLowercase.getD 0
      + o.minNumber.getD 0 + o.minSpecial.getD 0
  if optLt o.length minLength = true
  then updateHeap h oRef { o with length := some minLength } else h

/-- The object-level reads and writes of generatePassword (lines 35-58), the
only statements of the function that touch an object a caller can alias:
Object.assign allocates the fresh object at oRef from the objects at defRef
(the DefaultOptions module constant) and optsRef (the caller's argument), and
every subsequent assignment writes to oRef. -/
def generatePasswordHeap (h : Heap) (defRef optsRef oRef : Nat) : Heap :=
  raiseLengthStep oRef (defaultLengthStep oRef (sanitizeSpecialStep oRef
    (sanitizeNumberStep oRef (sanitizeLowerStep oRef (sanitizeUpperStep oRef
      (assignStep defRef optsRef oRef h))))))

lemma updateHeap_ne (hh : Heap) (t : Nat) (v : GenOptions) (r : Nat) (hr : r ≠ t) :
    updateHeap hh t v r = hh r := by
  unfold updateHeap
  rw [if_neg hr]

lemma assignStep_ne (defRef optsRef oRef : Nat) (h : Heap) (r : Nat) (hr : r ≠ oRef) :
    assignStep defRef optsRef oRef h r = h r :=
  updateHeap_ne _ _ _ _ hr

lemma sanitizeUpperStep_ne (oRef : Nat) (h : Heap) (r : Nat) (hr : r ≠ oRef) :
    sanitizeUpperStep oRef h r = h r := by
  unfold sanitizeUpperStep
  split_ifs
  · exact updateHeap_ne _ _ _ _ hr
  · rfl

lemma sanitizeLowerStep_ne (oRef : Nat) (h : Heap) (r : Nat) (hr : r ≠ oRef) :
    sanitizeLowerStep oRef h r = h r := by
  unfold sanitizeLowerStep
  split_ifs
  · exact updateHeap_ne _ _ _ _ hr
  · rfl

lemma sanitizeNumberStep_ne (oRef : Nat) (h : Heap) (r : Nat) (hr : r ≠ oRef) :
    sanitizeNumberStep oRef h r = h r := by
  unfold sanitizeNumberStep
  split_ifs
  · exact updateHeap_ne _ _ _ _ hr
  · rfl

lemma sanitizeSpecialStep_ne (oRef : Nat) (h : Heap) (r : Nat) (hr : r ≠ oRef) :
    sanitizeSpecialStep oRef h r = h r := by
  unfold sanitizeSpecialStep
  split_ifs
  · exact updateHeap_ne _ _ _ _ hr
  · rfl

lemma defaultLengthStep_ne (oRef : Nat) (h : Heap) (r : Nat) (hr : r ≠ oRef) :
    defaultLengthStep oRef h r = h r := by
  unfold defaultLengthStep
  split_ifs
  · exact updateHeap_ne _ _ _ _ hr
  · rfl

lemma raiseLengthStep_ne (oRef : Nat) (h : Heap) (r : Nat) (hr : r ≠ oRef) :
    raiseLengthStep oRef h r = h r := by
  unfold raiseLengthStep
  split_ifs
  · exact updateHeap_ne _ _ _ _ hr
  · rfl

/-- C10: generatePassword mutates neither the caller's options object nor the
DefaultOptions module constant: `o` is a fresh object produced by
Object.assign and all writes of the function target `o`, so the heap cells of
the argument and of the defaults hold the same object after the call as
before. -/
theorem generatePassword_no_mutation (h : Heap) (defRef optsRef oRef : Nat)
    (hd : defRef ≠ oRef) (ho : optsRef ≠ oRef) :
    generatePasswordHeap h defRef optsRef oRef defRef = h defRef ∧
    generatePasswordHeap h defRef optsRef oRef optsRef = h optsRef := by
  unfold generatePasswordHeap
  constructor
  · rw [raiseLengthStep_ne _ _ _ hd, defaultLengthStep_ne _ _ _ hd,
      sanitizeSpecialStep_ne _ _ _ hd, sanitizeNumberStep_ne _ _ _ hd,
      sanitizeLowerStep_ne _ _ _ hd, sanitizeUpperStep_ne _ _ _ hd,
      assignStep_ne _ _ _ _ _ hd]
  · rw [raiseLengthStep_ne _ _ _ ho, defaultLengthStep_ne _ _ _ ho,
      sanitizeSpecialStep_ne _ _ _ ho, sanitizeNumberStep_ne _ _ _ ho,
      sanitizeLowerStep_ne _ _ _ ho, sanitizeUpperStep_ne _ _ _ ho,
      assignStep_ne _ _ _ _ _ ho]

/-- Closed instance of generatePassword_no_mutation on a heap holding the
defaults object and an options object at distinct identities. -/
theorem generatePassword_no_mutation_witness :
    (0 : Nat) ≠ 2 ∧ (1 : Nat) ≠ 2 ∧
    (generatePasswordHeap
        (updateHeap (updateHeap emptyHeap 0 DefaultOptionsObj) 1 { length := some 0 }) 0 1 2 0
      = updateHeap (updateHeap emptyHeap 0 DefaultOptionsObj) 1 { length := some 0 } 0 ∧
     generatePasswordHeap
        (updateHeap (updateHeap emptyHeap 0 DefaultOptionsObj) 1 { length := some 0 }) 0 1 2 1
      = updateHeap (updateHeap emptyHeap 0 DefaultOptionsObj) 1 { length := some 0 } 1) :=
  ⟨by decide, by decide,
   generatePassword_no_mutation
     (updateHeap (updateHeap emptyHeap 0 DefaultOptionsObj) 1 { length := some 0 }) 0 1 2
     (by decide) (by decide)⟩

end PasswordGen
